import Mathlib

/-
Verification development for the CUDA-to-HIP source translator
(`hipify-clang/src/Cuda2Hip.cpp`).  The rewrite engine is embedded
shallowly: each handler of `Cuda2Hip.cpp` becomes a Lean function on an
explicit translation state (edits, statistics, warnings), the rename
tables are parameters (they are external data compiled in from
`CUDA2HipMap.h`), and the driver's option handling and file operations
are modelled as pure functions producing action lists.
-/

namespace HIP

/-- Single-quote character, used verbatim in several diagnostic messages. -/
def sq : String := String.mk [Char.ofNat 39]

/-- First index in the list whose character satisfies the predicate. -/
def firstIdxP (p : Char → Bool) : List Char → Option Nat
  | [] => none
  | c :: r => if p c then some 0 else (firstIdxP p r).map (· + 1)

/-- First index at which the pattern occurs as a contiguous sublist. -/
def subIdx (pat : List Char) : List Char → Option Nat
  | [] => if pat = [] then some 0 else none
  | c :: r => if pat.isPrefixOf (c :: r) then some 0 else (subIdx pat r).map (· + 1)

/-- Model of `StringRef::find(pat, From)`: first occurrence of `pat` at index `≥ i`. -/
def subFindFrom (s pat : List Char) (i : Nat) : Option Nat :=
  (subIdx pat (s.drop i)).map (· + i)

/-- Model of `StringRef::find_first_of(c, From)` for a one-character set. -/
def charFindFrom (s : List Char) (c : Char) (i : Nat) : Option Nat :=
  (firstIdxP (fun d => d = c) (s.drop i)).map (· + i)

/-- Model of `StringRef::slice(b, e)` (with `e` already clamped to the size). -/
def strSlice (s : List Char) (b e : Nat) : List Char := (s.take e).drop b

theorem firstIdxP_some {p : Char → Bool} {l : List Char} {j : Nat}
    (h : firstIdxP p l = some j) : j < l.length := by
  induction l generalizing j with
  | nil => simp [firstIdxP] at h
  | cons c r ih =>
    rw [firstIdxP] at h
    split at h
    · simp only [Option.some.injEq] at h
      simp [← h]
    · cases hr : firstIdxP p r with
      | none => rw [hr] at h; simp at h
      | some k =>
        rw [hr] at h
        simp only [Option.map_some', Option.some.injEq] at h
        have := ih hr
        simp [← h]
        omega

theorem subIdx_some {pat l : List Char} {j : Nat} (hpat : pat ≠ [])
    (h : subIdx pat l = some j) : pat.isPrefixOf (l.drop j) = true ∧ j < l.length := by
  induction l generalizing j with
  | nil => simp [subIdx, hpat] at h
  | cons c r ih =>
    rw [subIdx] at h
    split at h
    next hc =>
      simp only [Option.some.injEq] at h
      subst h
      exact ⟨by simpa using hc, by simp⟩
    · cases hr : subIdx pat r with
      | none => rw [hr] at h; simp at h
      | some k =>
        rw [hr] at h
        simp only [Option.map_some', Option.some.injEq] at h
        obtain ⟨h1, h2⟩ := ih hr
        subst h
        exact ⟨by simpa using h1, by simpa using h2⟩

theorem subFindFrom_some {s pat : List Char} {i j : Nat} (hpat : pat ≠ [])
    (h : subFindFrom s pat i = some j) :
    i ≤ j ∧ pat.isPrefixOf (s.drop j) = true ∧ j < s.length := by
  unfold subFindFrom at h
  cases hs : subIdx pat (s.drop i) with
  | none => rw [hs] at h; simp at h
  | some k =>
    rw [hs] at h
    simp only [Option.map_some', Option.some.injEq] at h
    obtain ⟨h1, h2⟩ := subIdx_some hpat hs
    subst h
    refine ⟨by omega, ?_, ?_⟩
    · rw [Nat.add_comm, ← List.drop_drop]
      exact h1
    · have : (s.drop i).length = s.length - i := by simp
      omega

theorem charFindFrom_some {s : List Char} {c : Char} {i e : Nat}
    (h : charFindFrom s c i = some e) : i ≤ e ∧ e < s.length := by
  unfold charFindFrom at h
  cases hs : firstIdxP (fun d => d = c) (s.drop i) with
  | none => rw [hs] at h; simp at h
  | some k =>
    rw [hs] at h
    simp only [Option.map_some', Option.some.injEq] at h
    have hk := firstIdxP_some hs
    have : (s.drop i).length = s.length - i := by simp
    subst h
    omega

theorem strSlice_length {s : List Char} {b e : Nat} (hb : b ≤ e) (he : e ≤ s.length) :
    (strSlice s b e).length = e - b := by
  simp [strSlice]
  omega

/-! ### Data model: rename-table entries, edits, statistics, translation state -/

/-- Conversion-type tags (`ConvTypes` in `CUDA2HipMap.h`); only the tags that the
core's own code mentions are distinguished, all table-borne tags are data. -/
inductive ConvType where
  | CONV_INCLUDE_CUDA_MAIN_H
  | CONV_LITERAL
  | CONV_KERN
  | CONV_MEM
  | CONV_OTHER
deriving DecidableEq

/-- API-family tags (`ApiTypes` in `CUDA2HipMap.h`). -/
inductive ApiType where
  | API_RUNTIME
  | API_OTHER
deriving DecidableEq

/-- A rename-table entry / statistics key (`hipCounter`): DST name, conversion
tag, API tag and the `unsupported` flag. -/
structure HipCounter where
  hipName : String
  convType : ConvType
  apiType : ApiType
  unsupported : Bool := false
deriving DecidableEq

/-- One byte-range replacement (`clang::tooling::Replacement` restricted to a
single file): source offset, length of the replaced range, new text. -/
structure Edit where
  offset : Nat
  length : Nat
  text : String
deriving DecidableEq

/-- One `[HIPIFY]` diagnostic printed to stderr by `printHipifyMessage`. -/
structure Warning where
  loc : Nat
  msgType : String
  message : String
deriving DecidableEq

/-- The per-file statistics that `Statistics::current()` accumulates: every
`incrementCounter` event (counter key and SRC name), the touched lines, and
the total bytes changed. -/
structure Stats where
  hits : List (HipCounter × String)
  linesTouched : List Nat
  bytesChanged : Nat
deriving DecidableEq

/-- The mutable state of one translation job: the `Replacements` set (as the
insertion-ordered list of edits), the statistics, and the warnings stream. -/
structure TransState where
  edits : List Edit
  stats : Stats
  warnings : List Warning
deriving DecidableEq

def initState : TransState := ⟨[], ⟨[], [], 0⟩, []⟩

/-- The three read-only rename maps plus the merged identifier/type map
`CUDA_RENAMES_MAP()`; external data from `CUDA2HipMap.h`, taken as parameters. -/
structure Tables where
  renames : String → Option HipCounter
  identifierMap : String → Option HipCounter
  typeNameMap : String → Option HipCounter
  includeMap : String → Option HipCounter

/-- Ambient context of a job: the tables, the (effective) `-print-stats` flag
read by `insertReplacement`, and the SourceManager's offset-to-line mapping. -/
structure Ctx where
  tables : Tables
  printStats : Bool
  lineOf : Nat → Nat

/-! ### Core state transitions (`Cuda2Hip` protected members) -/

/-- `Statistics::current().incrementCounter(counter, name)`: record one hit. -/
def incrementCounter (ctr : HipCounter) (srcName : String) (st : TransState) : TransState :=
  { st with stats := { st.stats with hits := st.stats.hits ++ [(ctr, srcName)] } }

/-- `Cuda2Hip::insertReplacement`: add the edit to the replacement set; when
`PrintStats` is set, also record the touched line and the changed bytes. -/
def insertReplacement (ctx : Ctx) (rep : Edit) (st : TransState) : TransState :=
  let st := { st with edits := st.edits ++ [rep] }
  if ctx.printStats then
    { st with stats := { st.stats with
        linesTouched := st.stats.linesTouched ++ [ctx.lineOf rep.offset],
        bytesChanged := st.stats.bytesChanged + rep.length } }
  else st

/-- `Cuda2Hip::printHipifyMessage`: emit a `[HIPIFY] warning` diagnostic
carrying the source location and the message. -/
def printHipifyMessage (loc : Nat) (message : String) (st : TransState) : TransState :=
  { st with warnings := st.warnings ++ [⟨loc, "warning", message⟩] }

/-- The pattern `"cu"` searched for by `Cuda2Hip::processString`. -/
def cuPat : List Char := ['c', 'u']

/-- The loop body of `Cuda2Hip::processString` for one candidate `(begin, name)`:
look the candidate up in `CUDA_RENAMES_MAP()`; on a hit record one
`[string literal]` hit and, unless unsupported, insert the replacement at
source offset `start + begin + 1` of length `name.size()`. -/
def stepMatch (ctx : Ctx) (start : Nat) (st : TransState) (m : Nat × List Char) : TransState :=
  match ctx.tables.renames (String.mk m.2) with
  | none => st
  | some found =>
    let counter : HipCounter :=
      ⟨"[string literal]", ConvType.CONV_LITERAL, ApiType.API_RUNTIME, found.unsupported⟩
    let st1 := incrementCounter counter (String.mk m.2) st
    if counter.unsupported = false then
      insertReplacement ctx ⟨start + m.1 + 1, m.2.length, found.hipName⟩ st1
    else st1

/-- The scan loop of `Cuda2Hip::processString`: find `"cu"` from `b`; delimit the
candidate by the next `' '` at index `≥ begin + 4` (or end of string); process
it; stop if no delimiter was found, else resume at the delimiter's successor. -/
def processStringAux (ctx : Ctx) (start : Nat) (s : List Char) (b : Nat)
    (st : TransState) : TransState :=
  match hf : subFindFrom s cuPat b with
  | none => st
  | some bg =>
    match he : charFindFrom s ' ' (bg + 4) with
    | none => stepMatch ctx start st (bg, strSlice s bg s.length)
    | some e =>
      processStringAux ctx start s (e + 1) (stepMatch ctx start st (bg, strSlice s bg e))
termination_by s.length - b
decreasing_by
  obtain ⟨hb1, _, hb3⟩ := subFindFrom_some (by simp [cuPat]) hf
  obtain ⟨he1, he2⟩ := charFindFrom_some he
  omega

/-- `Cuda2Hip::processString(s, SM, start)`. -/
def processString (ctx : Ctx) (start : Nat) (s : List Char) (st : TransState) : TransState :=
  processStringAux ctx start s 0 st

/-- The candidate sequence examined by the string scanner, written out as data:
each element is `(begin, candidate)` where `begin` is the next occurrence of
`"cu"`, the candidate ends at the next `' '` at index `≥ begin + 4` (or at end
of string, in which case the scan stops afterwards), and scanning resumes one
past the delimiting space. -/
def scanMatchesAux (s : List Char) (b : Nat) : List (Nat × List Char) :=
  match hf : subFindFrom s cuPat b with
  | none => []
  | some bg =>
    match he : charFindFrom s ' ' (bg + 4) with
    | none => [(bg, strSlice s bg s.length)]
    | some e => (bg, strSlice s bg e) :: scanMatchesAux s (e + 1)
termination_by s.length - b
decreasing_by
  obtain ⟨hb1, _, hb3⟩ := subFindFrom_some (by simp [cuPat]) hf
  obtain ⟨he1, he2⟩ := charFindFrom_some he
  omega

def scanMatches (s : List Char) : List (Nat × List Char) := scanMatchesAux s 0

theorem processStringAux_eq_foldl (ctx : Ctx) (start : Nat) (s : List Char) :
    ∀ (b : Nat) (st : TransState),
    processStringAux ctx start s b st =
      (scanMatchesAux s b).foldl (stepMatch ctx start) st := by
  intro b
  induction b using scanMatchesAux.induct s with
  | case1 b hf =>
    intro st
    rw [processStringAux, scanMatchesAux]
    split <;> simp_all
  | case2 b bg hf he =>
    intro st
    rw [processStringAux, scanMatchesAux]
    split <;> simp_all
    split <;> simp_all
  | case3 b bg hf e he ih =>
    intro st
    rw [processStringAux, scanMatchesAux]
    split <;> simp_all
    split <;> simp_all

theorem processString_eq_foldl (ctx : Ctx) (start : Nat) (s : List Char) (st : TransState) :
    processString ctx start s st = (scanMatches s).foldl (stepMatch ctx start) st :=
  processStringAux_eq_foldl ctx start s 0 st

theorem scanMatchesAux_entry (s : List Char) :
    ∀ (b : Nat), ∀ m ∈ scanMatchesAux s b, 2 ≤ m.2.length := by
  intro b
  induction b using scanMatchesAux.induct s with
  | case1 b hf =>
    intro m hm
    rw [scanMatchesAux] at hm
    split at hm
    · simp at hm
    · simp_all
  | case2 b bg hf he =>
    intro m hm
    obtain ⟨hb1, hb2, hb3⟩ := subFindFrom_some (by simp [cuPat]) hf
    have hlen : 2 ≤ (s.drop bg).length := by
      have := List.IsPrefix.length_le (List.isPrefixOf_iff_prefix.mp hb2)
      simpa [cuPat] using this
    have hdrop : (s.drop bg).length = s.length - bg := by simp
    rw [scanMatchesAux] at hm
    split at hm
    · simp_all
    next bg' hf' =>
      rw [hf] at hf'
      have hbg : bg = bg' := by injection hf'
      subst hbg
      split at hm
      next he' =>
        simp only [List.mem_singleton] at hm
        subst hm
        have : (strSlice s bg s.length).length = s.length - bg :=
          strSlice_length (by omega) (by omega)
        simp only [this]
        omega
      next e' he' =>
        rw [he] at he'
        simp at he'
  | case3 b bg hf e he ih =>
    intro m hm
    obtain ⟨hb1, hb2, hb3⟩ := subFindFrom_some (by simp [cuPat]) hf
    obtain ⟨he1, he2⟩ := charFindFrom_some he
    rw [scanMatchesAux] at hm
    split at hm
    · simp_all
    next bg' hf' =>
      rw [hf] at hf'
      have hbg : bg = bg' := by injection hf'
      subst hbg
      split at hm
      next he' =>
        rw [he] at he'
        simp at he'
      next e' he' =>
        rw [he] at he'
        have hee : e = e' := by injection he'
        subst hee
        rcases List.mem_cons.mp hm with hm | hm
        · subst hm
          have : (strSlice s bg e).length = e - bg :=
            strSlice_length (by omega) (by omega)
          simp only [this]
          omega
        · exact ih m hm

theorem stepMatch_delta (ctx : Ctx) (start : Nat) (st : TransState) (m : Nat × List Char) :
    ∃ de dh, (stepMatch ctx start st m).edits = st.edits ++ de ∧
      (stepMatch ctx start st m).stats.hits = st.stats.hits ++ dh ∧
      (stepMatch ctx start st m).warnings = st.warnings ∧
      de.length ≤ dh.length ∧ ∀ ed ∈ de, ed.length = m.2.length := by
  unfold stepMatch
  cases hl : ctx.tables.renames (String.mk m.2) with
  | none => exact ⟨[], [], by simp, by simp, by simp, by simp, by simp⟩
  | some found =>
    by_cases hu : found.unsupported = false
    · refine ⟨[⟨start + m.1 + 1, m.2.length, found.hipName⟩],
        [(⟨"[string literal]", ConvType.CONV_LITERAL, ApiType.API_RUNTIME, found.unsupported⟩,
          String.mk m.2)], ?_, ?_, ?_, by simp, by simp⟩ <;>
        by_cases hp : ctx.printStats <;>
        simp [hu, hp, incrementCounter, insertReplacement]
    · refine ⟨[],
        [(⟨"[string literal]", ConvType.CONV_LITERAL, ApiType.API_RUNTIME, found.unsupported⟩,
          String.mk m.2)], ?_, ?_, ?_, by simp, by simp⟩ <;>
        simp [hu, incrementCounter]

theorem foldl_stepMatch_delta (ctx : Ctx) (start : Nat) (ms : List (Nat × List Char)) :
    ∀ st : TransState,
    ∃ de dh, (ms.foldl (stepMatch ctx start) st).edits = st.edits ++ de ∧
      (ms.foldl (stepMatch ctx start) st).stats.hits = st.stats.hits ++ dh ∧
      (ms.foldl (stepMatch ctx start) st).warnings = st.warnings ∧
      de.length ≤ dh.length ∧ ∀ ed ∈ de, ∃ m ∈ ms, ed.length = m.2.length := by
  induction ms with
  | nil => intro st; exact ⟨[], [], by simp, by simp, by simp, by simp, by simp⟩
  | cons m ms ih =>
    intro st
    obtain ⟨de1, dh1, h1, h2, h3, h4, h5⟩ := stepMatch_delta ctx start st m
    obtain ⟨de2, dh2, g1, g2, g3, g4, g5⟩ := ih (stepMatch ctx start st m)
    refine ⟨de1 ++ de2, dh1 ++ dh2, ?_, ?_, ?_, ?_, ?_⟩
    · simp [g1, h1]
    · simp [g2, h2]
    · simp [g3, h3]
    · simp; omega
    · intro ed hed
      rcases List.mem_append.mp hed with hd | hd
      · exact ⟨m, by simp, h5 ed hd⟩
      · obtain ⟨m', hm', hl'⟩ := g5 ed hd
        exact ⟨m', by simp [hm'], hl'⟩

theorem foldl_stepMatch_no_hit (ctx : Ctx) (start : Nat) (ms : List (Nat × List Char)) :
    ∀ st : TransState, (∀ m ∈ ms, ctx.tables.renames (String.mk m.2) = none) →
    ms.foldl (stepMatch ctx start) st = st := by
  induction ms with
  | nil => intro st _; rfl
  | cons m ms ih =>
    intro st hn
    have h0 : stepMatch ctx start st m = st := by
      unfold stepMatch
      rw [hn m (by simp)]
    simp only [List.foldl_cons, h0]
    exact ih st (fun m' hm' => hn m' (by simp [hm']))

/-! ### Handlers: preprocessor callbacks and AST match callbacks -/

/-- The single header-insertion edit text built by `insertHipHeaders`. -/
def hipHeaderName : String := "#include <hip/hip_runtime.h>"

/-- The counter key used by `insertHipHeaders`. -/
def hipHeaderCounter : HipCounter :=
  ⟨hipHeaderName, ConvType.CONV_INCLUDE_CUDA_MAIN_H, ApiType.API_RUNTIME, false⟩

/-- The edit that `insertHipHeaders` prepends: offset 0, length 0, the DST
runtime-header include directive followed by a newline. -/
def hipHeaderEdit : Edit := ⟨0, 0, hipHeaderName ++ "\n"⟩

/-- `Cuda2Hip::insertHipHeaders`: if the replacement set is non-empty, count one
hit for the runtime-header include and prepend the directive at offset 0. -/
def insertHipHeaders (ctx : Ctx) (st : TransState) : TransState :=
  if st.edits.length > 0 then
    let st1 := incrementCounter hipHeaderCounter "#include <cuda>" st
    insertReplacement ctx hipHeaderEdit st1
  else st

/-- `HipifyPPCallbacks::InclusionDirective`: rewrite angle-includes of the main
file found in `CUDA_INCLUDE_MAP`; count every hit; warn (without editing) on
unsupported headers.  `fnOff`/`fnLen` are the offset and byte length of the
filename range between the delimiters. -/
def InclusionDirective (ctx : Ctx) (inMainFile isAngled : Bool) (fileName : String)
    (hashOff fnOff fnLen : Nat) (st : TransState) : TransState :=
  if ¬inMainFile ∨ ¬isAngled then st
  else
    match ctx.tables.includeMap fileName with
    | none => st
    | some found =>
      let st1 := incrementCounter found fileName st
      if found.unsupported then
        printHipifyMessage hashOff ("Unsupported CUDA header used: " ++ fileName) st1
      else
        insertReplacement ctx ⟨fnOff, fnLen, "<" ++ found.hipName ++ ">"⟩ st1

/-- Preprocessor token kinds: ordinary (1-byte-wide) string literals lex as
`tok::string_literal`; wide, UTF-16 and UTF-32 literals (character byte width
2 or 4) lex as distinct kinds for which `Token::is(tok::string_literal)` is
false and `isAnyIdentifier()` is false. -/
inductive PPTokenKind where
  | stringLit (literalData : String)
  | wideStringLit (literalData : String)
  | utf16StringLit (literalData : String)
  | utf32StringLit (literalData : String)
  | identTok (name : String)
  | otherTok
deriving DecidableEq

/-- A preprocessor token: kind plus source offset of its location. -/
structure PPToken where
  kind : PPTokenKind
  loc : Nat
deriving DecidableEq

/-- Modelled from the spec: `unquoteStr` (from `StringUtils.h`, which is not
under `src/`) strips the surrounding quotes from a string-literal token,
yielding "a raw string-literal body (already unquoted)" (spec §4.2). -/
def unquoteStr (s : String) : String :=
  if 2 ≤ s.length ∧ s.front = Char.ofNat 34 ∧ s.back = Char.ofNat 34 then
    (s.drop 1).dropRight 1
  else s

/-- `HipifyPPCallbacks::RewriteToken`: string-literal tokens go to the string
rewriter; identifier tokens are looked up in `CUDA_RENAMES_MAP()` (count every
hit, warn on unsupported, otherwise edit); all other tokens are ignored. -/
def RewriteToken (ctx : Ctx) (t : PPToken) (st : TransState) : TransState :=
  match t.kind with
  | PPTokenKind.stringLit d => processString ctx t.loc (unquoteStr d).toList st
  | PPTokenKind.identTok name =>
    match ctx.tables.renames name with
    | none => st
    | some found =>
      let st1 := incrementCounter found name st
      if found.unsupported then
        printHipifyMessage t.loc ("Unsupported CUDA identifier used: " ++ name) st1
      else
        insertReplacement ctx ⟨t.loc, name.length, found.hipName⟩ st1
  | _ => st

/-- `Cuda2HipCallback::cudaCall`: look the direct callee's name up in
`CUDA_IDENTIFIER_MAP`; a miss warns (`not handled ... [function call]`); a hit
counts, and then an unsupported entry returns silently — no warning — while a
supported one inserts the rename edit at the call begin. -/
def cudaCall (ctx : Ctx) (name : String) (off : Nat) (st : TransState) : TransState :=
  match ctx.tables.identifierMap name with
  | none =>
    printHipifyMessage off
      ("the following reference is not handled: " ++ sq ++ name ++ sq ++ " [function call].") st
  | some hipCtr =>
    let st1 := incrementCounter hipCtr name st
    if hipCtr.unsupported then st1
    else insertReplacement ctx ⟨off, name.length, hipCtr.hipName⟩ st1

/-- `Cuda2HipCallback::stringifyZeroDefaultedArg`: a defaulted configuration
argument (`CXXDefaultArgExpr`, modelled as `none`) becomes the literal `"0"`;
otherwise the verbatim source text of the argument is used. -/
def stringifyZeroDefaultedArg : Option String → String
  | none => "0"
  | some t => t

/-- The data of one matched `CUDAKernelCallExpr`: verbatim source text of the
callee and of configuration arguments 0 and 1; configuration arguments 2 and 3
(`none` when the source provided a default-argument expression); the verbatim
text of the ordinary kernel arguments (`none` when there are no arguments);
and the write-range begin offset and the offset of the end of the last token. -/
structure LaunchExpr where
  calleeText : String
  arg0Text : String
  arg1Text : String
  arg2 : Option String
  arg3 : Option String
  kernelArgsText : Option String
  beginOff : Nat
  endOfLastTokenOff : Nat
deriving DecidableEq

/-- `Cuda2HipCallback::cudaLaunchKernel`: build the `hipLaunchKernelGGL(...)`
replacement text by streaming the pieces, replace the span from the launch
begin to the end of its last token, then count one `hipLaunchKernelGGL` hit. -/
def cudaLaunchKernel (ctx : Ctx) (l : LaunchExpr) (st : TransState) : TransState :=
  let txt := "hipLaunchKernelGGL(" ++ l.calleeText ++ ", "
  let txt := txt ++ "dim3(" ++ l.arg0Text ++ "), "
  let txt := txt ++ "dim3(" ++ l.arg1Text ++ "), "
  let txt := txt ++ stringifyZeroDefaultedArg l.arg2 ++ ", "
  let txt := txt ++ stringifyZeroDefaultedArg l.arg3
  let txt :=
    match l.kernelArgsText with
    | some ka => txt ++ ", " ++ ka
    | none => txt
  let txt := txt ++ ")"
  let st1 := insertReplacement ctx ⟨l.beginOff, l.endOfLastTokenOff - l.beginOff, txt⟩ st
  incrementCounter ⟨"hipLaunchKernelGGL", ConvType.CONV_KERN, ApiType.API_RUNTIME, false⟩
    "cudaLaunchKernel" st1

/-- Model of `StringRef::find_first_not_of(chars)`. -/
def findFirstNotOfIdx (s chars : List Char) : Option Nat :=
  firstIdxP (fun c => ¬ chars.contains c) s

/-- `Cuda2HipCallback::cudaBuiltin`: compose `declName ++ "." ++ memberName`
(after `find_first_not_of("__fetch_builtin_")` trimming of the member name),
as `Cuda2HipCallback::cudaBuiltin` does before its lookup. -/
def builtinName (declName memberName0 : String) : String :=
  let memberName :=
    match findFirstNotOfIdx memberName0.toList "__fetch_builtin_".toList with
    | some p => String.mk (memberName0.toList.drop p)
    | none => ""
  declName ++ "." ++ memberName

/-- `Cuda2HipCallback::cudaBuiltin`: look the composed builtin name up in
`CUDA_IDENTIFIER_MAP`; count on a hit and edit unless unsupported; warn on a
miss. -/
def cudaBuiltin (ctx : Ctx) (declName memberName0 : String) (off : Nat)
    (st : TransState) : TransState :=
  let name := builtinName declName memberName0
  match ctx.tables.identifierMap name with
  | some found =>
    let st1 := incrementCounter found name st
    if found.unsupported then st1
    else insertReplacement ctx ⟨off, name.length, found.hipName⟩ st1
  | none =>
    printHipifyMessage off
      ("the following reference is not handled: " ++ sq ++ name ++ sq ++ " [builtin].") st

/-- `Cuda2HipCallback::cudaEnumConstantRef`: look the enumerator name up in
`CUDA_IDENTIFIER_MAP`; count on a hit and edit unless unsupported (no warning
for unsupported); warn on a miss. -/
def cudaEnumConstantRef (ctx : Ctx) (name : String) (off : Nat)
    (st : TransState) : TransState :=
  match ctx.tables.identifierMap name with
  | some found =>
    let st1 := incrementCounter found name st
    if found.unsupported then st1
    else insertReplacement ctx ⟨off, name.length, found.hipName⟩ st1
  | none =>
    printHipifyMessage off
      ("the following reference is not handled: " ++ sq ++ name ++ sq ++ " [enum constant ref].") st

/-- Modelled from the spec: `removePrefixIfPresent` (from `StringUtils.h`, not
under `src/`) strips "the leading `enum ` or `struct ` word from the printed
name" (spec §4.4) when present. -/
def removePrefixIfPresent (s p : String) : String :=
  if p.toList.isPrefixOf s.toList then s.drop p.length else s

/-- The printed type name after the `enum `/`struct ` stripping performed by
`Cuda2HipCallback::cudaType`. -/
def strippedTypeName (printedName : String) (isEnum isStruct : Bool) : String :=
  let typeName := if isEnum then removePrefixIfPresent printedName "enum " else printedName
  if isStruct then removePrefixIfPresent typeName "struct " else typeName

/-- `Cuda2HipCallback::cudaType`: strip `enum `/`struct ` from the printed type
name, look it up in `CUDA_TYPE_NAME_MAP`; an unsupported hit warns and does not
edit; a supported hit edits.  Note: this handler never calls
`incrementCounter`. -/
def cudaType (ctx : Ctx) (printedName : String) (isEnum isStruct : Bool) (off : Nat)
    (st : TransState) : TransState :=
  let typeName := strippedTypeName printedName isEnum isStruct
  match ctx.tables.typeNameMap typeName with
  | none => st
  | some hipCtr =>
    if hipCtr.unsupported then
      printHipifyMessage off ("Unsupported CUDA " ++ sq ++ typeName) st
    else
      insertReplacement ctx ⟨off, typeName.length, hipCtr.hipName⟩ st

/-- `Cuda2HipCallback::cudaSharedIncompleteArrayVar`: for an extern shared
incomplete-array declaration whose element type name was derived non-empty,
replace the whole declaration span with `HIP_DYNAMIC_SHARED(type, var)` and
count one `HIP_DYNAMIC_SHARED` hit. -/
def cudaSharedIncompleteArrayVar (ctx : Ctx) (hasExternalLinkage : Bool)
    (typeName varName : String) (startOff endOff : Nat) (st : TransState) : TransState :=
  if hasExternalLinkage then
    if typeName ≠ "" then
      let repName := "HIP_DYNAMIC_SHARED(" ++ typeName ++ ", " ++ varName ++ ")"
      let st1 := insertReplacement ctx ⟨startOff, endOff - startOff + 1, repName⟩ st
      incrementCounter ⟨"HIP_DYNAMIC_SHARED", ConvType.CONV_MEM, ApiType.API_RUNTIME, false⟩
        "cudaSharedIncompleteArrayVar" st1
    else st
  else st

/-- `Cuda2HipCallback::stringLiteral`: only 1-byte-character-width literals are
handed to `processString`. -/
def stringLiteral (ctx : Ctx) (body : String) (charByteWidth : Nat) (startOff : Nat)
    (st : TransState) : TransState :=
  if charByteWidth = 1 then processString ctx startOff body.toList st else st

/-! ### Sites and dispatch -/

/-- One visit of the translator to a source construct, carrying exactly the
data the corresponding handler reads. -/
inductive Site where
  | inclusion (inMainFile isAngled : Bool) (fileName : String) (hashOff fnOff fnLen : Nat)
  | ppTok (t : PPToken)
  | typeSite (printedName : String) (isEnum isStruct : Bool) (off : Nat)
  | callSite (name : String) (off : Nat)
  | builtinSite (declName memberName : String) (off : Nat)
  | enumSite (name : String) (off : Nat)
  | launchSite (l : LaunchExpr)
  | sharedSite (hasExternalLinkage : Bool) (typeName varName : String) (startOff endOff : Nat)
  | astString (body : String) (charByteWidth startOff : Nat)
deriving DecidableEq

/-- Route one site to its handler (the per-kind dispatch done by
`Cuda2HipCallback::run` and the preprocessor callbacks). -/
def dispatchSite (ctx : Ctx) (site : Site) (st : TransState) : TransState :=
  match site with
  | Site.inclusion inMain isAngled fn hashOff fnOff fnLen =>
    InclusionDirective ctx inMain isAngled fn hashOff fnOff fnLen st
  | Site.ppTok t => RewriteToken ctx t st
  | Site.typeSite n ie is off => cudaType ctx n ie is off st
  | Site.callSite n off => cudaCall ctx n off st
  | Site.builtinSite d m off => cudaBuiltin ctx d m off st
  | Site.enumSite n off => cudaEnumConstantRef ctx n off st
  | Site.launchSite l => cudaLaunchKernel ctx l st
  | Site.sharedSite ext tn vn so eo => cudaSharedIncompleteArrayVar ctx ext tn vn so eo st
  | Site.astString body w so => stringLiteral ctx body w so st

/-- Fold all sites of one translation unit, starting from the empty state. -/
def processSites (ctx : Ctx) (sites : List Site) : TransState :=
  sites.foldl (fun st site => dispatchSite ctx site st) initState

/-- `HipifyPPCallbacks::handleEndSource`, which calls `insertHipHeaders`. -/
def handleEndSource (ctx : Ctx) (st : TransState) : TransState :=
  insertHipHeaders ctx st

/-- One whole translation job over the sites of one file. -/
def runJob (ctx : Ctx) (sites : List Site) : TransState :=
  handleEndSource ctx (processSites ctx sites)

/-! ### Applying the replacement set -/

/-- Apply one edit to a byte buffer. -/
def applyEdit (buf : List Char) (ed : Edit) : List Char :=
  buf.take ed.offset ++ ed.text.toList ++ buf.drop (ed.offset + ed.length)

/-- Insert an edit into a list sorted by decreasing offset. -/
def insertDesc (e : Edit) : List Edit → List Edit
  | [] => [e]
  | f :: r => if f.offset ≤ e.offset then e :: f :: r else f :: insertDesc e r

/-- Sort edits by decreasing offset (the application discipline of §4.1:
apply edits in decreasing offset order so earlier offsets remain valid). -/
def sortEditsDesc : List Edit → List Edit
  | [] => []
  | e :: r => insertDesc e (sortEditsDesc r)

/-- Apply a replacement set to a buffer. -/
def applyEdits (eds : List Edit) (buf : List Char) : List Char :=
  (sortEditsDesc eds).foldl applyEdit buf

/-- The output text of one translation job on one input buffer. -/
def translateOutput (ctx : Ctx) (sites : List Site) (input : List Char) : List Char :=
  applyEdits (runJob ctx sites).edits input


/-! ### Driver model (`main`): options, conflicts, file actions -/

/-- The command-line options declared at the top of `Cuda2Hip.cpp`.  An empty
string models an unset `cl::opt<std::string>`. -/
structure Options where
  outputFilename : String := ""
  inplace : Bool := false
  noBackup : Bool := false
  noOutput : Bool := false
  printStats : Bool := false
  outputStatsFilename : String := ""
  examine : Bool := false
deriving DecidableEq

/-- Filesystem actions performed by the driver loop. -/
inductive FsAction where
  | copyF (src dst : String)
  | writeF (p : String)
  | renameF (a b : String)
  | removeF (p : String)
deriving DecidableEq

/-- The paths an action creates or modifies. -/
def touchedPaths : FsAction → List String
  | FsAction.copyF _ dst => [dst]
  | FsAction.writeF p => [p]
  | FsAction.renameF _ b => [b]
  | FsAction.removeF p => [p]

/-- The destination path for one source file (the `dst` computation at the top
of the driver loop). -/
def destFor (o : String) (inplace : Bool) (src : String) : String :=
  if o = "" then (if inplace then src else src ++ ".hip") else o

/-- The file actions for one source file: copy to the `.hipify-tmp` working
file; afterwards either write the rewritten tmp and move it onto the
destination, or (with no output) delete the tmp. -/
def fileActions (noOutput : Bool) (o : String) (inplace : Bool) (src : String) :
    List FsAction :=
  let tmp := src ++ ".hipify-tmp"
  [FsAction.copyF src tmp] ++
    (if noOutput then [FsAction.removeF tmp]
     else [FsAction.writeF tmp, FsAction.renameF tmp (destFor o inplace src)])

/-- The observable outcome of option processing and the driver loop: the
conflict message and exit code if any conflict fired, otherwise the effective
flags, the stats destinations and the filesystem actions. -/
structure RunResult where
  conflictMsg : Option String
  exitCode : Nat
  actions : List FsAction
  statsToStderr : Bool
  csvPath : String
deriving DecidableEq

/-- A run that ended in an option-conflict rejection. -/
def conflictResult (msg : String) (csv : String) : RunResult :=
  ⟨some msg, 1, [], false, csv⟩

/-- `main`'s option phase and driver loop.  The conflict checks run in source
order: `-o` with multiple sources; `-no-output` with `-inplace`; `-no-output`
with `-o`; only after those does `-examine` expand to
`-no-output -print-stats`; the `-o` with `-inplace` conflict fires inside the
loop on the first file.  `NoBackup` is parsed but never read. -/
def runMain (opts : Options) (sources : List String) : RunResult :=
  if opts.outputFilename ≠ "" ∧ 1 < sources.length then
    conflictResult "conflict: -o and multiple source files are specified." ""
  else if opts.noOutput ∧ opts.inplace then
    conflictResult "conflict: both -no-output and -inplace options are specified." ""
  else if opts.noOutput ∧ opts.outputFilename ≠ "" then
    conflictResult "conflict: both -no-output and -o options are specified." ""
  else
    let noOut := opts.noOutput || opts.examine
    let ps := opts.printStats || opts.examine
    if opts.outputFilename ≠ "" ∧ opts.inplace ∧ sources ≠ [] then
      conflictResult "conflict: both -o and -inplace options are specified."
        opts.outputStatsFilename
    else
      ⟨none, 0,
        sources.flatMap (fileActions noOut opts.outputFilename opts.inplace),
        ps, opts.outputStatsFilename⟩

/-- The effective `-no-output` flag after `-examine` expansion. -/
def effectiveNoOutput (opts : Options) : Bool := opts.noOutput || opts.examine

/-- The effective `-print-stats` flag after `-examine` expansion. -/
def effectivePrintStats (opts : Options) : Bool := opts.printStats || opts.examine

/-- Literal textual substitution of `-examine` by `-no-output -print-stats`. -/
def examineExpand (opts : Options) : Options :=
  { opts with examine := false, noOutput := true, printStats := true }


/-! ### Basic effect lemmas -/

@[simp] theorem insertReplacement_edits (ctx : Ctx) (rep : Edit) (st : TransState) :
    (insertReplacement ctx rep st).edits = st.edits ++ [rep] := by
  unfold insertReplacement
  by_cases hp : ctx.printStats <;> simp [hp]

@[simp] theorem insertReplacement_hits (ctx : Ctx) (rep : Edit) (st : TransState) :
    (insertReplacement ctx rep st).stats.hits = st.stats.hits := by
  unfold insertReplacement
  by_cases hp : ctx.printStats <;> simp [hp]

@[simp] theorem insertReplacement_warnings (ctx : Ctx) (rep : Edit) (st : TransState) :
    (insertReplacement ctx rep st).warnings = st.warnings := by
  unfold insertReplacement
  by_cases hp : ctx.printStats <;> simp [hp]

@[simp] theorem incrementCounter_edits (ctr : HipCounter) (n : String) (st : TransState) :
    (incrementCounter ctr n st).edits = st.edits := rfl

@[simp] theorem incrementCounter_hits (ctr : HipCounter) (n : String) (st : TransState) :
    (incrementCounter ctr n st).stats.hits = st.stats.hits ++ [(ctr, n)] := rfl

@[simp] theorem incrementCounter_warnings (ctr : HipCounter) (n : String) (st : TransState) :
    (incrementCounter ctr n st).warnings = st.warnings := rfl

@[simp] theorem printHipifyMessage_edits (loc : Nat) (m : String) (st : TransState) :
    (printHipifyMessage loc m st).edits = st.edits := rfl

@[simp] theorem printHipifyMessage_hits (loc : Nat) (m : String) (st : TransState) :
    (printHipifyMessage loc m st).stats.hits = st.stats.hits := rfl

@[simp] theorem printHipifyMessage_warnings (loc : Nat) (m : String) (st : TransState) :
    (printHipifyMessage loc m st).warnings = st.warnings ++ [⟨loc, "warning", m⟩] := rfl

/-! ### Claim-side predicates over sites -/

/-- Bool classifier: is this a launch-syntax site? -/
def isLaunchSite : Site → Bool
  | Site.launchSite _ => true
  | _ => false

/-- Bool classifier: is this a shared-incomplete-array site? -/
def isSharedSite : Site → Bool
  | Site.sharedSite _ _ _ _ _ => true
  | _ => false

/-- Bool classifier: is this a type-location site? -/
def isTypeSite : Site → Bool
  | Site.typeSite _ _ _ _ => true
  | _ => false

/-- Every candidate the string scanner would examine in `s` misses the merged
rename map. -/
def stringScanNoHit (tbl : Tables) (s : List Char) : Bool :=
  (scanMatches s).all (fun m => (tbl.renames (String.mk m.2)).isNone)

/-- No rename-table lookup performed at this site succeeds (the formal reading
of "contains no SRC vocabulary recognized by any table" for one site).  Launch
and shared-array sites perform no lookup at all. -/
def siteNoLookupHit (tbl : Tables) : Site → Bool
  | Site.inclusion _ _ fn _ _ _ => (tbl.includeMap fn).isNone
  | Site.ppTok t =>
    match t.kind with
    | PPTokenKind.identTok n => (tbl.renames n).isNone
    | PPTokenKind.stringLit d => stringScanNoHit tbl (unquoteStr d).toList
    | _ => true
  | Site.typeSite n ie is _ => (tbl.typeNameMap (strippedTypeName n ie is)).isNone
  | Site.callSite n _ => (tbl.identifierMap n).isNone
  | Site.builtinSite d m _ => (tbl.identifierMap (builtinName d m)).isNone
  | Site.enumSite n _ => (tbl.identifierMap n).isNone
  | Site.launchSite _ => true
  | Site.sharedSite _ _ _ _ _ => true
  | Site.astString body _ _ => stringScanNoHit tbl body.toList

/-- The lookup at this site succeeds with an entry flagged unsupported; only
the four site shapes named by the spec sentence (include directive, identifier
token, type, function call) are classified. -/
def siteUnsupLookup (tbl : Tables) : Site → Bool
  | Site.inclusion inMain isAngled fn _ _ _ =>
    inMain && isAngled &&
      (match tbl.includeMap fn with
       | some f => f.unsupported
       | none => false)
  | Site.ppTok t =>
    match t.kind with
    | PPTokenKind.identTok n =>
      (match tbl.renames n with
       | some f => f.unsupported
       | none => false)
    | _ => false
  | Site.typeSite n ie is _ =>
    (match tbl.typeNameMap (strippedTypeName n ie is) with
     | some f => f.unsupported
     | none => false)
  | Site.callSite n _ =>
    (match tbl.identifierMap n with
     | some f => f.unsupported
     | none => false)
  | _ => false

/-- The identifier-map lookup at a call / builtin / enum-constant site misses
(the warning-producing "unrecognized reference" situation). -/
def siteIsIdentMiss (tbl : Tables) : Site → Bool
  | Site.callSite n _ => (tbl.identifierMap n).isNone
  | Site.builtinSite d m _ => (tbl.identifierMap (builtinName d m)).isNone
  | Site.enumSite n _ => (tbl.identifierMap n).isNone
  | _ => false

/-- Mild well-formedness of a site, true of everything the front-end can
produce: names coming from identifier tokens, callees, enumerators and printed
types are non-empty, include filename ranges and launch spans are non-empty. -/
def siteWF : Site → Bool
  | Site.inclusion _ _ _ _ _ fnLen => 0 < fnLen
  | Site.ppTok t =>
    match t.kind with
    | PPTokenKind.identTok n => n ≠ ""
    | _ => true
  | Site.typeSite n ie is _ => strippedTypeName n ie is ≠ ""
  | Site.callSite n _ => n ≠ ""
  | Site.enumSite n _ => n ≠ ""
  | Site.builtinSite _ _ _ => true
  | Site.launchSite l => l.beginOff < l.endOfLastTokenOff
  | Site.sharedSite _ _ _ _ _ => true
  | Site.astString _ _ _ => true

/-- Number of copies of the runtime-header include edit in the state. -/
def headerEditCount (st : TransState) : Nat :=
  st.edits.countP (fun e => e == hipHeaderEdit)

/-- Number of hits recorded for the runtime-header include counter. -/
def headerHitCount (st : TransState) : Nat :=
  st.stats.hits.countP (fun h => h == (hipHeaderCounter, "#include <cuda>"))

theorem strLength_pos {n : String} (h : n ≠ "") : 0 < n.length := by
  cases n with
  | mk data =>
    cases data with
    | nil => simp at h
    | cons c r => simp [String.length]

theorem builtinName_length_pos (d m : String) : 0 < (builtinName d m).length := by
  unfold builtinName
  have h1 : ("." : String).length = 1 := by decide
  simp only [String.length_append]
  omega

theorem processString_editsDelta (ctx : Ctx) (start : Nat) (s : List Char)
    (st : TransState) :
    ∃ de dh, (processString ctx start s st).edits = st.edits ++ de ∧
      (processString ctx start s st).stats.hits = st.stats.hits ++ dh ∧
      (processString ctx start s st).warnings = st.warnings ∧
      de.length ≤ dh.length ∧ ∀ ed ∈ de, 2 ≤ ed.length := by
  rw [processString_eq_foldl]
  obtain ⟨de, dh, h1, h2, h3, h4, h5⟩ := foldl_stepMatch_delta ctx start (scanMatches s) st
  refine ⟨de, dh, h1, h2, h3, h4, ?_⟩
  intro ed hed
  obtain ⟨m, hm, hl⟩ := h5 ed hed
  rw [hl]
  exact scanMatchesAux_entry s 0 m hm

theorem dispatchSite_editsPos (ctx : Ctx) (site : Site) (st : TransState)
    (hwf : siteWF site = true) (h : ∀ e ∈ st.edits, 0 < e.length) :
    ∀ e ∈ (dispatchSite ctx site st).edits, 0 < e.length := by
  cases site with
  | inclusion inMain isAngled fn hashOff fnOff fnLen =>
    simp only [siteWF, decide_eq_true_eq] at hwf
    show ∀ e ∈ (InclusionDirective ctx inMain isAngled fn hashOff fnOff fnLen st).edits,
      0 < e.length
    unfold InclusionDirective
    split
    · exact h
    · cases hfind : ctx.tables.includeMap fn with
      | none => exact h
      | some found =>
        by_cases hu : found.unsupported <;> simp [hu]
        · exact fun e he => h e he
        · intro e he
          rcases he with he | he
          · exact h e he
          · simp [he, hwf]
  | ppTok t =>
    obtain ⟨kind, loc⟩ := t
    show ∀ e ∈ (RewriteToken ctx ⟨kind, loc⟩ st).edits, 0 < e.length
    cases kind with
    | stringLit d =>
      unfold RewriteToken
      obtain ⟨de, dh, h1, h2, h3, h4, h5⟩ :=
        processString_editsDelta ctx loc (unquoteStr d).toList st
      simp only []
      rw [h1]
      intro e he
      rcases List.mem_append.mp he with he | he
      · exact h e he
      · have := h5 e he
        omega
    | identTok n =>
      simp only [siteWF, ne_eq, decide_eq_true_eq] at hwf
      unfold RewriteToken
      simp only []
      cases hfind : ctx.tables.renames n with
      | none => exact h
      | some found =>
        by_cases hu : found.unsupported <;> simp [hu]
        · exact fun e he => h e he
        · intro e he
          rcases he with he | he
          · exact h e he
          · simp [he]
            exact strLength_pos hwf
    | wideStringLit d => exact h
    | utf16StringLit d => exact h
    | utf32StringLit d => exact h
    | otherTok => exact h
  | typeSite n ie is off =>
    simp only [siteWF, ne_eq, decide_eq_true_eq] at hwf
    show ∀ e ∈ (cudaType ctx n ie is off st).edits, 0 < e.length
    unfold cudaType
    simp only []
    cases hfind : ctx.tables.typeNameMap (strippedTypeName n ie is) with
    | none => exact h
    | some found =>
      by_cases hu : found.unsupported <;> simp [hu]
      · exact fun e he => h e he
      · intro e he
        rcases he with he | he
        · exact h e he
        · simp [he]
          exact strLength_pos hwf
  | callSite n off =>
    simp only [siteWF, ne_eq, decide_eq_true_eq] at hwf
    show ∀ e ∈ (cudaCall ctx n off st).edits, 0 < e.length
    unfold cudaCall
    cases hfind : ctx.tables.identifierMap n with
    | none => simpa using h
    | some found =>
      by_cases hu : found.unsupported <;> simp [hu]
      · exact fun e he => h e he
      · intro e he
        rcases he with he | he
        · exact h e he
        · simp [he]
          exact strLength_pos hwf
  | builtinSite d m off =>
    show ∀ e ∈ (cudaBuiltin ctx d m off st).edits, 0 < e.length
    unfold cudaBuiltin
    simp only []
    cases hfind : ctx.tables.identifierMap (builtinName d m) with
    | none => simpa using h
    | some found =>
      by_cases hu : found.unsupported <;> simp [hu]
      · exact fun e he => h e he
      · intro e he
        rcases he with he | he
        · exact h e he
        · simp [he]
          exact builtinName_length_pos d m
  | enumSite n off =>
    simp only [siteWF, ne_eq, decide_eq_true_eq] at hwf
    show ∀ e ∈ (cudaEnumConstantRef ctx n off st).edits, 0 < e.length
    unfold cudaEnumConstantRef
    cases hfind : ctx.tables.identifierMap n with
    | none => simpa using h
    | some found =>
      by_cases hu : found.unsupported <;> simp [hu]
      · exact fun e he => h e he
      · intro e he
        rcases he with he | he
        · exact h e he
        · simp [he]
          exact strLength_pos hwf
  | launchSite l =>
    simp only [siteWF, decide_eq_true_eq] at hwf
    show ∀ e ∈ (cudaLaunchKernel ctx l st).edits, 0 < e.length
    unfold cudaLaunchKernel
    simp only [incrementCounter_edits, insertReplacement_edits]
    intro e he
    rcases List.mem_append.mp he with he | he
    · exact h e he
    · simp at he
      simp [he]
      omega
  | sharedSite ext tn vn so eo =>
    show ∀ e ∈ (cudaSharedIncompleteArrayVar ctx ext tn vn so eo st).edits, 0 < e.length
    unfold cudaSharedIncompleteArrayVar
    by_cases hx : ext <;> simp [hx]
    · by_cases htn : tn = "" <;> simp [htn]
      · exact fun e he => h e he
      · intro e he
        rcases he with he | he
        · exact h e he
        · simp [he]
    · exact fun e he => h e he
  | astString body w so =>
    show ∀ e ∈ (stringLiteral ctx body w so st).edits, 0 < e.length
    unfold stringLiteral
    by_cases hw : w = 1 <;> simp [hw]
    · obtain ⟨de, dh, h1, h2, h3, h4, h5⟩ := processString_editsDelta ctx so body.data st
      rw [h1]
      intro e he
      rcases List.mem_append.mp he with he | he
      · exact h e he
      · have := h5 e he
        omega
    · exact fun e he => h e he

theorem foldl_dispatch_editsPos (ctx : Ctx) (sites : List Site) :
    ∀ st : TransState, (∀ s ∈ sites, siteWF s = true) →
    (∀ e ∈ st.edits, 0 < e.length) →
    ∀ e ∈ (sites.foldl (fun st site => dispatchSite ctx site st) st).edits, 0 < e.length := by
  induction sites with
  | nil => intro st _ h; exact h
  | cons s rest ih =>
    intro st hwf h
    simp only [List.foldl_cons]
    exact ih _ (fun s' hs' => hwf s' (by simp [hs']))
      (dispatchSite_editsPos ctx s st (hwf s (by simp)) h)

theorem processSites_editsPos (ctx : Ctx) (sites : List Site)
    (hwf : ∀ s ∈ sites, siteWF s = true) :
    ∀ e ∈ (processSites ctx sites).edits, 0 < e.length :=
  foldl_dispatch_editsPos ctx sites initState hwf (by simp [initState])

/-- C1: for every translation job over well-formed sites, the DST runtime-header
include edit (offset 0) is present after end-of-source exactly when at least one
other edit was produced, it is present exactly once, and its include counter was
incremented exactly once more; no job ever ends with two such directives. -/
theorem c1_header_insertion (ctx : Ctx) (sites : List Site)
    (hwf : ∀ s ∈ sites, siteWF s = true) :
    headerEditCount (processSites ctx sites) = 0 ∧
    headerEditCount (runJob ctx sites) =
      (if (processSites ctx sites).edits = [] then 0 else 1) ∧
    headerHitCount (runJob ctx sites) =
      headerHitCount (processSites ctx sites) +
        (if (processSites ctx sites).edits = [] then 0 else 1) := by
  have hpos := processSites_editsPos ctx sites hwf
  have hzero : headerEditCount (processSites ctx sites) = 0 := by
    unfold headerEditCount
    rw [List.countP_eq_zero]
    intro e he hcontra
    have heq : e = hipHeaderEdit := by simpa using hcontra
    have := hpos e he
    rw [heq] at this
    simp [hipHeaderEdit] at this
  refine ⟨hzero, ?_, ?_⟩ <;>
    unfold runJob handleEndSource insertHipHeaders <;>
    by_cases hed : (processSites ctx sites).edits = []
  · simp [hed, hzero]
  · have hlen : 0 < (processSites ctx sites).edits.length := by
      cases hx : (processSites ctx sites).edits with
      | nil => exact absurd hx hed
      | cons a l => simp
    simp only [hlen, if_pos, if_neg hed]
    unfold headerEditCount
    simp [List.countP_append]
    intro a ha hc
    have := hpos a ha
    rw [hc] at this
    exact Nat.lt_irrefl 0 this
  · simp [hed]
  · have hlen : 0 < (processSites ctx sites).edits.length := by
      cases hx : (processSites ctx sites).edits with
      | nil => exact absurd hx hed
      | cons a l => simp
    simp only [hlen, if_pos, if_neg hed]
    unfold headerHitCount
    simp [List.countP_append]

/-- A small concrete rename entry used by witnesses. -/
def wEntry : HipCounter := ⟨"hipMalloc", ConvType.CONV_OTHER, ApiType.API_RUNTIME, false⟩

/-- Concrete witness tables: `cudaMalloc` is a supported identifier, both in
the merged renames map and in the identifier map. -/
def wTables : Tables :=
  ⟨fun n => if n = "cudaMalloc" then some wEntry else none,
   fun n => if n = "cudaMalloc" then some wEntry else none,
   fun _ => none,
   fun _ => none⟩

/-- Concrete witness context. -/
def wCtx : Ctx := ⟨wTables, false, fun _ => 1⟩

theorem c1_header_insertion_witness :
    headerEditCount (processSites wCtx [Site.callSite "cudaMalloc" 5]) = 0 ∧
    headerEditCount (runJob wCtx [Site.callSite "cudaMalloc" 5]) =
      (if (processSites wCtx [Site.callSite "cudaMalloc" 5]).edits = [] then 0 else 1) ∧
    headerHitCount (runJob wCtx [Site.callSite "cudaMalloc" 5]) =
      headerHitCount (processSites wCtx [Site.callSite "cudaMalloc" 5]) +
        (if (processSites wCtx [Site.callSite "cudaMalloc" 5]).edits = [] then 0 else 1) :=
  c1_header_insertion wCtx [Site.callSite "cudaMalloc" 5] (by decide)

theorem processString_noHit (ctx : Ctx) (start : Nat) (s : List Char) (st : TransState)
    (h : stringScanNoHit ctx.tables s = true) :
    processString ctx start s st = st := by
  rw [processString_eq_foldl]
  apply foldl_stepMatch_no_hit
  intro m hm
  have := List.all_eq_true.mp h m hm
  simpa [Option.isNone_iff_eq_none] using this

theorem dispatchSite_noEdit (ctx : Ctx) (site : Site) (st : TransState)
    (hnl : siteNoLookupHit ctx.tables site = true)
    (hl : isLaunchSite site = false) (hs : isSharedSite site = false) :
    (dispatchSite ctx site st).edits = st.edits := by
  cases site with
  | inclusion inMain isAngled fn hashOff fnOff fnLen =>
    simp only [siteNoLookupHit, Option.isNone_iff_eq_none] at hnl
    show (InclusionDirective ctx inMain isAngled fn hashOff fnOff fnLen st).edits = st.edits
    unfold InclusionDirective
    split
    · rfl
    · rw [hnl]
  | ppTok t =>
    obtain ⟨kind, loc⟩ := t
    show (RewriteToken ctx ⟨kind, loc⟩ st).edits = st.edits
    cases kind with
    | stringLit d =>
      simp only [siteNoLookupHit] at hnl
      unfold RewriteToken
      simp only []
      rw [processString_noHit ctx loc (unquoteStr d).toList st hnl]
    | identTok n =>
      simp only [siteNoLookupHit, Option.isNone_iff_eq_none] at hnl
      unfold RewriteToken
      simp only []
      rw [hnl]
    | wideStringLit d => rfl
    | utf16StringLit d => rfl
    | utf32StringLit d => rfl
    | otherTok => rfl
  | typeSite n ie is off =>
    simp only [siteNoLookupHit, Option.isNone_iff_eq_none] at hnl
    show (cudaType ctx n ie is off st).edits = st.edits
    unfold cudaType
    simp only []
    rw [hnl]
  | callSite n off =>
    simp only [siteNoLookupHit, Option.isNone_iff_eq_none] at hnl
    show (cudaCall ctx n off st).edits = st.edits
    unfold cudaCall
    rw [hnl]
    simp
  | builtinSite d m off =>
    simp only [siteNoLookupHit, Option.isNone_iff_eq_none] at hnl
    show (cudaBuiltin ctx d m off st).edits = st.edits
    unfold cudaBuiltin
    simp only []
    rw [hnl]
    simp
  | enumSite n off =>
    simp only [siteNoLookupHit, Option.isNone_iff_eq_none] at hnl
    show (cudaEnumConstantRef ctx n off st).edits = st.edits
    unfold cudaEnumConstantRef
    rw [hnl]
    simp
  | launchSite l => simp [isLaunchSite] at hl
  | sharedSite ext tn vn so eo => simp [isSharedSite] at hs
  | astString body w so =>
    simp only [siteNoLookupHit] at hnl
    show (stringLiteral ctx body w so st).edits = st.edits
    unfold stringLiteral
    by_cases hw : w = 1 <;> simp [hw]
    rw [processString_noHit ctx so body.data st hnl]

/-- The statement of claim C2 as written: an input whose sites contain no SRC
vocabulary recognized by any of the three rename tables translates to an
output byte-identical to the input. -/
def ClaimC2Statement : Prop :=
  ∀ (ctx : Ctx) (sites : List Site) (input : List Char),
    (∀ s ∈ sites, siteNoLookupHit ctx.tables s = true) →
    translateOutput ctx sites input = input

/-- Empty tables for the C2 counterexample. -/
def c2Tables : Tables := ⟨fun _ => none, fun _ => none, fun _ => none, fun _ => none⟩

/-- Context with empty rename tables. -/
def c2Ctx : Ctx := ⟨c2Tables, false, fun _ => 1⟩

/-- A launch-syntax site spanning the whole 13-byte input `k<<<g,b>>>(x)`. -/
def c2Launch : LaunchExpr := ⟨"k", "g", "b", none, none, some "x", 0, 13⟩

/-- C2 counterexample: a file containing a launch-syntax call but no vocabulary
recognized by any table is still rewritten (the launch handler consults no
table), so the output differs from the input. -/
theorem c2_counterexample : ¬ ClaimC2Statement := by
  intro hclaim
  have h1 : ∀ s ∈ [Site.launchSite c2Launch], siteNoLookupHit c2Ctx.tables s = true := by
    decide
  exact absurd (hclaim c2Ctx [Site.launchSite c2Launch] "k<<<g,b>>>(x)".toList h1) (by decide)

/-- C2 (amended): if additionally the file contains no launch-syntax calls and
no shared-memory incomplete-array declarations — the two handlers that rewrite
without consulting any rename table — then the output is byte-identical to the
input. -/
theorem c2_amended (ctx : Ctx) (sites : List Site) (input : List Char)
    (hnl : ∀ s ∈ sites, siteNoLookupHit ctx.tables s = true)
    (hk : ∀ s ∈ sites, isLaunchSite s = false ∧ isSharedSite s = false) :
    translateOutput ctx sites input = input := by
  have hfold : ∀ (l : List Site), (∀ s ∈ l, siteNoLookupHit ctx.tables s = true) →
      (∀ s ∈ l, isLaunchSite s = false ∧ isSharedSite s = false) →
      ∀ st : TransState,
        (l.foldl (fun st site => dispatchSite ctx site st) st).edits = st.edits := by
    intro l
    induction l with
    | nil => intro _ _ st; rfl
    | cons s rest ih =>
      intro h1 h2 st
      simp only [List.foldl_cons]
      rw [ih (fun s' h => h1 s' (by simp [h])) (fun s' h => h2 s' (by simp [h]))]
      exact dispatchSite_noEdit ctx s st (h1 s (by simp)) (h2 s (by simp)).1 (h2 s (by simp)).2
  have h0 : (processSites ctx sites).edits = [] := hfold sites hnl hk initState
  have hpre : (runJob ctx sites).edits = [] := by
    unfold runJob handleEndSource insertHipHeaders
    simp [h0]
  unfold translateOutput
  rw [hpre]
  rfl

/-- Concrete C2-amended witness data: one call site whose name no table knows. -/
theorem c2_amended_witness :
    translateOutput c2Ctx [Site.callSite "cudaFoo" 5] "abc".toList = "abc".toList :=
  c2_amended c2Ctx [Site.callSite "cudaFoo" 5] "abc".toList (by decide) (by decide)

/-- The warning list that C3's amended statement predicts for one unsupported
lookup site: include/identifier/type sites warn with the message and location
the handlers print; function-call sites warn not at all. -/
def unsupWarnList (tbl : Tables) : Site → List Warning
  | Site.inclusion _ _ fn hashOff _ _ =>
    [⟨hashOff, "warning", "Unsupported CUDA header used: " ++ fn⟩]
  | Site.ppTok t =>
    (match t.kind with
     | PPTokenKind.identTok n =>
       [⟨t.loc, "warning", "Unsupported CUDA identifier used: " ++ n⟩]
     | _ => [])
  | Site.typeSite n ie is off =>
    [⟨off, "warning", "Unsupported CUDA " ++ sq ++ strippedTypeName n ie is⟩]
  | _ => []

/-- The number of counter increments an unsupported lookup produces: one at
include, identifier-token and function-call sites; none at type sites. -/
def unsupHitDelta : Site → Nat
  | Site.typeSite _ _ _ _ => 0
  | _ => 1

/-- The statement of claim C3 as written: at every lookup site (include
directive, identifier token, type — and also function-call matches) where the
lookup succeeds with an unsupported entry, a warning is emitted, the counter
is incremented, and no edit is emitted. -/
def ClaimC3Statement : Prop :=
  ∀ (ctx : Ctx) (site : Site) (st : TransState),
    siteUnsupLookup ctx.tables site = true →
    (dispatchSite ctx site st).warnings.length = st.warnings.length + 1 ∧
    (dispatchSite ctx site st).stats.hits.length = st.stats.hits.length + 1 ∧
    (dispatchSite ctx site st).edits = st.edits

/-- An unsupported identifier entry for counterexamples. -/
def xEntryUnsup : HipCounter := ⟨"hipUnsup", ConvType.CONV_OTHER, ApiType.API_RUNTIME, true⟩

/-- Tables where `cudaUnsup` is an unsupported identifier, `cudaErrorT` an
unsupported type name, and `cuda_unsup.h` an unsupported include. -/
def c3Tables : Tables :=
  ⟨fun _ => none,
   fun n => if n = "cudaUnsup" then some xEntryUnsup else none,
   fun n => if n = "cudaErrorT" then some xEntryUnsup else none,
   fun n => if n = "cuda_unsup.h" then some xEntryUnsup else none⟩

/-- Context for the C3 counterexample. -/
def c3Ctx : Ctx := ⟨c3Tables, false, fun _ => 1⟩

/-- C3 counterexample: at a function-call site whose entry is unsupported the
code increments the counter and emits no edit but prints no warning
(`cudaCall` returns silently), contradicting the claim; at a type site whose
entry is unsupported the code warns but increments no counter. -/
theorem c3_counterexample : ¬ ClaimC3Statement := by
  intro hclaim
  have hc := hclaim c3Ctx (Site.callSite "cudaUnsup" 7) initState (by decide)
  exact absurd hc.1 (by decide)

/-- C3 (amended): at include-directive and identifier-token sites an
unsupported lookup warns (with the location and the offending name), counts
one hit and emits no edit; at type sites it warns and emits no edit but counts
nothing; at function-call sites it counts one hit and emits no edit but warns
nothing. -/
theorem c3_amended (ctx : Ctx) (site : Site) (st : TransState)
    (hu : siteUnsupLookup ctx.tables site = true) :
    (dispatchSite ctx site st).edits = st.edits ∧
    (dispatchSite ctx site st).warnings = st.warnings ++ unsupWarnList ctx.tables site ∧
    (dispatchSite ctx site st).stats.hits.length = st.stats.hits.length + unsupHitDelta site := by
  cases site with
  | inclusion inMain isAngled fn hashOff fnOff fnLen =>
    simp only [siteUnsupLookup, Bool.and_eq_true] at hu
    obtain ⟨⟨hm, ha⟩, hu⟩ := hu
    cases hfind : ctx.tables.includeMap fn with
    | none => rw [hfind] at hu; simp at hu
    | some found =>
      rw [hfind] at hu
      simp at hu
      simp only [dispatchSite]
      unfold InclusionDirective
      rw [hfind]
      simp [hm, ha, hu, unsupWarnList, unsupHitDelta]
  | ppTok t =>
    obtain ⟨kind, loc⟩ := t
    cases kind with
    | identTok n =>
      simp only [siteUnsupLookup] at hu
      cases hfind : ctx.tables.renames n with
      | none => rw [hfind] at hu; simp at hu
      | some found =>
        rw [hfind] at hu
        simp at hu
        simp only [dispatchSite]
        unfold RewriteToken
        simp only []
        rw [hfind]
        simp [hu, unsupWarnList, unsupHitDelta]
    | stringLit d => simp [siteUnsupLookup] at hu
    | wideStringLit d => simp [siteUnsupLookup] at hu
    | utf16StringLit d => simp [siteUnsupLookup] at hu
    | utf32StringLit d => simp [siteUnsupLookup] at hu
    | otherTok => simp [siteUnsupLookup] at hu
  | typeSite n ie is off =>
    simp only [siteUnsupLookup] at hu
    cases hfind : ctx.tables.typeNameMap (strippedTypeName n ie is) with
    | none => rw [hfind] at hu; simp at hu
    | some found =>
      rw [hfind] at hu
      simp at hu
      simp only [dispatchSite]
      unfold cudaType
      simp only []
      rw [hfind]
      simp [hu, unsupWarnList, unsupHitDelta]
  | callSite n off =>
    simp only [siteUnsupLookup] at hu
    cases hfind : ctx.tables.identifierMap n with
    | none => rw [hfind] at hu; simp at hu
    | some found =>
      rw [hfind] at hu
      simp at hu
      simp only [dispatchSite]
      unfold cudaCall
      rw [hfind]
      simp [hu, unsupWarnList, unsupHitDelta]
  | builtinSite d m off => simp [siteUnsupLookup] at hu
  | enumSite n off => simp [siteUnsupLookup] at hu
  | launchSite l => simp [siteUnsupLookup] at hu
  | sharedSite ext tn vn so eo => simp [siteUnsupLookup] at hu
  | astString body w so => simp [siteUnsupLookup] at hu

theorem c3_amended_witness :
    (dispatchSite c3Ctx (Site.inclusion true true "cuda_unsup.h" 2 11 12) initState).edits
        = initState.edits ∧
    (dispatchSite c3Ctx (Site.inclusion true true "cuda_unsup.h" 2 11 12) initState).warnings
        = initState.warnings ++
          unsupWarnList c3Ctx.tables (Site.inclusion true true "cuda_unsup.h" 2 11 12) ∧
    (dispatchSite c3Ctx (Site.inclusion true true "cuda_unsup.h" 2 11 12) initState).stats.hits.length
        = initState.stats.hits.length +
          unsupHitDelta (Site.inclusion true true "cuda_unsup.h" 2 11 12) :=
  c3_amended c3Ctx (Site.inclusion true true "cuda_unsup.h" 2 11 12) initState (by decide)

/-- The end position used by claim C4's wording: the index of the next
whitespace character after `b`, or the end of the string. -/
def wsEndFrom (s : List Char) (b : Nat) : Nat :=
  match (firstIdxP Char.isWhitespace (s.drop b)).map (· + b) with
  | some e => e
  | none => s.length

/-- The statement of claim C4 as written: for every occurrence of `"cu"` at
offset `b` of a string-literal body, the candidate is `[b, e)` with `e` the
next whitespace position after `b` (or end of string), and a supported hit on
that candidate emits exactly one edit at `start + b + 1` of the candidate's
length. -/
def ClaimC4Statement : Prop :=
  ∀ (ctx : Ctx) (start : Nat) (s : List Char) (st : TransState) (b : Nat)
    (found : HipCounter),
    cuPat.isPrefixOf (s.drop b) = true →
    ctx.tables.renames (String.mk (strSlice s b (wsEndFrom s b))) = some found →
    found.unsupported = false →
    (processString ctx start s st).edits.count
        ⟨start + b + 1, (strSlice s b (wsEndFrom s b)).length, found.hipName⟩
      = st.edits.count
          ⟨start + b + 1, (strSlice s b (wsEndFrom s b)).length, found.hipName⟩ + 1

/-- Tables for the C4 counterexample: `cudaMalloc` is a supported rename. -/
def c4Tables : Tables :=
  ⟨fun n => if n = "cudaMalloc" then some wEntry else none,
   fun _ => none, fun _ => none, fun _ => none⟩

/-- Context for the C4 counterexample. -/
def c4Ctx : Ctx := ⟨c4Tables, false, fun _ => 1⟩

/-- C4 counterexample: in the body `"cu cudaMalloc"` the occurrence of `"cu"`
at offset 3 has whitespace-delimited candidate `cudaMalloc`, a supported table
entry, so the claim requires an edit — but the scanner's delimiter search
starts only at `begin + 4` and looks for `' '` only, so the first occurrence
(offset 0) swallows the whole tail, the lookup misses, the scan stops, and no
edit at all is emitted. -/
theorem c4_counterexample : ¬ ClaimC4Statement := by
  intro hclaim
  have hps : processString c4Ctx 0 "cu cudaMalloc".toList initState = initState := by
    unfold processString
    rw [processStringAux]
    split
    · rfl
    next bg hf =>
      have hv : subFindFrom "cu cudaMalloc".toList cuPat 0 = some 0 := by decide
      rw [hv] at hf
      injection hf with hbg
      subst hbg
      split
      next he => decide
      next e he =>
        have hv2 : charFindFrom "cu cudaMalloc".toList ' ' (0 + 4) = none := by decide
        rw [hv2] at he
        exact Option.noConfusion he
  have hc := hclaim c4Ctx 0 "cu cudaMalloc".toList initState 3 wEntry
    (by decide) (by decide) (by decide)
  rw [hps] at hc
  exact absurd hc (by decide)

/-- C4 (amended): the scanner walks the body as follows — find the next
occurrence of `"cu"` at `begin`; the candidate ends at the first `' '`
(space only, not general whitespace) at index `≥ begin + 4`, or at end of
string; a supported hit emits one edit at `start + begin + 1` with the
candidate's length, an unsupported hit only counts; if a space delimiter was
found the scan resumes one past it, otherwise it stops.  Formally:
`processString` equals the fold of the per-candidate step over exactly this
candidate sequence. -/
theorem c4_amended (ctx : Ctx) (start : Nat) (s : List Char) (st : TransState) :
    processString ctx start s st = (scanMatches s).foldl (stepMatch ctx start) st :=
  processString_eq_foldl ctx start s st

/-- The replacement text format stated by claim C5/spec §4.4 for a launch-syntax
match. -/
def specLaunchText (l : LaunchExpr) : String :=
  "hipLaunchKernelGGL(" ++ l.calleeText ++ ", dim3(" ++ l.arg0Text ++ "), dim3(" ++
    l.arg1Text ++ "), " ++
    (match l.arg2 with | none => "0" | some t => t) ++ ", " ++
    (match l.arg3 with | none => "0" | some t => t) ++
    (match l.kernelArgsText with | none => "" | some ka => ", " ++ ka) ++ ")"

/-- C5: every launch-syntax match emits exactly one edit whose text follows the
`hipLaunchKernelGGL(callee, dim3(arg0), dim3(arg1), arg2-or-0, arg3-or-0
[, kernel-args])` format — with `0` substituted exactly for default-argument
expressions — and whose span runs from the launch begin to the end of its last
token; one `hipLaunchKernelGGL` counter hit accompanies the edit. -/
theorem c5_launch_format (ctx : Ctx) (l : LaunchExpr) (st : TransState) :
    (cudaLaunchKernel ctx l st).edits =
      st.edits ++ [⟨l.beginOff, l.endOfLastTokenOff - l.beginOff, specLaunchText l⟩] ∧
    (cudaLaunchKernel ctx l st).stats.hits =
      st.stats.hits ++
        [(⟨"hipLaunchKernelGGL", ConvType.CONV_KERN, ApiType.API_RUNTIME, false⟩,
          "cudaLaunchKernel")] := by
  unfold cudaLaunchKernel specLaunchText stringifyZeroDefaultedArg
  cases l.arg2 <;> cases l.arg3 <;> cases l.kernelArgsText <;>
    simp [String.ext_iff]

/-- The option set of the C6 failing input: `-inplace` alone (no `-no-backup`). -/
def c6Opts : Options := { inplace := true }

/-- C6 (code bug): running `-inplace` on `a.cu` performs exactly a copy to the
working file, a write of the rewritten working file, and a rename onto the
input; no action ever touches `a.cu.prehip`, although the `-inplace` help text
promises a `.prehip` backup and `-no-backup` exists to suppress it. -/
theorem c6_no_prehip_backup :
    runMain c6Opts ["a.cu"] =
      ⟨none, 0,
        [FsAction.copyF "a.cu" "a.cu.hipify-tmp",
         FsAction.writeF "a.cu.hipify-tmp",
         FsAction.renameF "a.cu.hipify-tmp" "a.cu"], false, ""⟩ ∧
    "a.cu.prehip" ∉ (runMain c6Opts ["a.cu"]).actions.flatMap touchedPaths := by
  decide

/-- The statement of claim C7 as written: replacing `-examine` by
`-no-output -print-stats` never changes the observable run outcome. -/
def ClaimC7Statement : Prop :=
  ∀ (opts : Options) (sources : List String), opts.examine = true →
    runMain opts sources = runMain (examineExpand opts) sources

/-- C7 counterexample: `-examine -inplace` runs (the `-no-output`/`-inplace`
conflict is checked before `-examine` is expanded), while
`-no-output -print-stats -inplace` exits 1 with a conflict message. -/
theorem c7_counterexample : ¬ ClaimC7Statement := by
  intro hclaim
  exact absurd (hclaim { examine := true, inplace := true } ["a.cu"] rfl) (by decide)

/-- C7 (amended): on every command line that passes neither `-inplace` nor
`-o`, `-examine` is observably equivalent to `-no-output -print-stats`; the
equivalence fails only because the `-no-output` conflict checks run before
`-examine` is expanded. -/
theorem c7_examine_equiv (opts : Options) (sources : List String)
    (hx : opts.examine = true) (hi : opts.inplace = false) (ho : opts.outputFilename = "") :
    runMain opts sources = runMain (examineExpand opts) sources := by
  unfold runMain examineExpand
  simp [hx, hi, ho]

theorem c7_examine_equiv_witness :
    runMain { examine := true, outputStatsFilename := "x.csv" } ["a.cu", "b.cu"] =
      runMain (examineExpand { examine := true, outputStatsFilename := "x.csv" })
        ["a.cu", "b.cu"] :=
  c7_examine_equiv { examine := true, outputStatsFilename := "x.csv" } ["a.cu", "b.cu"]
    rfl rfl rfl

/-- The statement of claim C8 as written, per handler invocation: warnings come
with zero edits, and the counter increments at one site are at least the edits
plus the warnings it produced (each edit and each warning carrying exactly one
increment implies this). -/
def ClaimC8Statement : Prop :=
  ∀ (ctx : Ctx) (site : Site) (st : TransState),
    ((dispatchSite ctx site st).warnings.length > st.warnings.length →
      (dispatchSite ctx site st).edits = st.edits) ∧
    (dispatchSite ctx site st).edits.length - st.edits.length +
        ((dispatchSite ctx site st).warnings.length - st.warnings.length) ≤
      (dispatchSite ctx site st).stats.hits.length - st.stats.hits.length

/-- Tables for the C8 counterexample: `cudaError_t` is a supported type name. -/
def c8Tables : Tables :=
  ⟨fun _ => none, fun _ => none,
   fun n => if n = "cudaError_t" then some wEntry else none,
   fun _ => none⟩

/-- Context for the C8 counterexample. -/
def c8Ctx : Ctx := ⟨c8Tables, false, fun _ => 1⟩

/-- C8 counterexample: a supported type-site edit is emitted with zero counter
increments (`cudaType` never calls `incrementCounter`), so the edit/increment
correspondence fails. -/
theorem c8_counterexample : ¬ ClaimC8Statement := by
  intro hclaim
  exact absurd (hclaim c8Ctx (Site.typeSite "cudaError_t" false false 0) initState).2
    (by decide)

/-- C8 (amended): at every handler invocation, warnings come with zero edits;
outside the type handler and outside the unrecognized-reference warning sites
(call/builtin/enum lookup misses), increments are at least edits plus
warnings; the type handler never increments any counter; and the
unrecognized-reference warnings at call/builtin/enum lookup misses likewise
produce zero counter increments. -/
theorem c8_amended (ctx : Ctx) (site : Site) (st : TransState) :
    ((dispatchSite ctx site st).warnings.length > st.warnings.length →
      (dispatchSite ctx site st).edits = st.edits) ∧
    (isTypeSite site = false → siteIsIdentMiss ctx.tables site = false →
      (dispatchSite ctx site st).edits.length - st.edits.length +
          ((dispatchSite ctx site st).warnings.length - st.warnings.length) ≤
        (dispatchSite ctx site st).stats.hits.length - st.stats.hits.length) ∧
    (isTypeSite site = true → (dispatchSite ctx site st).stats.hits = st.stats.hits) ∧
    (siteIsIdentMiss ctx.tables site = true →
      (dispatchSite ctx site st).stats.hits = st.stats.hits) := by
  cases site with
  | inclusion inMain isAngled fn hashOff fnOff fnLen =>
    simp only [dispatchSite]
    unfold InclusionDirective
    split
    · simp [isTypeSite]
    · cases hfind : ctx.tables.includeMap fn with
      | none => simp [isTypeSite]
      | some found =>
        by_cases hu : found.unsupported <;>
          simp [hu, isTypeSite, siteIsIdentMiss]
  | ppTok t =>
    obtain ⟨kind, loc⟩ := t
    simp only [dispatchSite]
    cases kind with
    | stringLit d =>
      unfold RewriteToken
      simp only []
      obtain ⟨de, dh, h1, h2, h3, h4, h5⟩ :=
        processString_editsDelta ctx loc (unquoteStr d).data st
      simp [h1, h2, h3, isTypeSite, siteIsIdentMiss]
      omega
    | identTok n =>
      unfold RewriteToken
      simp only []
      cases hfind : ctx.tables.renames n with
      | none => simp [isTypeSite]
      | some found =>
        by_cases hu : found.unsupported <;>
          simp [hu, isTypeSite, siteIsIdentMiss]
    | wideStringLit d => simp [isTypeSite, RewriteToken]
    | utf16StringLit d => simp [isTypeSite, RewriteToken]
    | utf32StringLit d => simp [isTypeSite, RewriteToken]
    | otherTok => simp [isTypeSite, RewriteToken]
  | typeSite n ie is off =>
    simp only [dispatchSite]
    unfold cudaType
    simp only []
    cases hfind : ctx.tables.typeNameMap (strippedTypeName n ie is) with
    | none => simp [isTypeSite]
    | some found =>
      by_cases hu : found.unsupported <;> simp [hu, isTypeSite]
  | callSite n off =>
    simp only [dispatchSite]
    unfold cudaCall
    cases hfind : ctx.tables.identifierMap n with
    | none => simp [isTypeSite, siteIsIdentMiss, hfind]
    | some found =>
      by_cases hu : found.unsupported <;> simp [hu, isTypeSite, siteIsIdentMiss, hfind]
  | builtinSite d m off =>
    simp only [dispatchSite]
    unfold cudaBuiltin
    simp only []
    cases hfind : ctx.tables.identifierMap (builtinName d m) with
    | none => simp [isTypeSite, siteIsIdentMiss, hfind]
    | some found =>
      by_cases hu : found.unsupported <;> simp [hu, isTypeSite, siteIsIdentMiss, hfind]
  | enumSite n off =>
    simp only [dispatchSite]
    unfold cudaEnumConstantRef
    cases hfind : ctx.tables.identifierMap n with
    | none => simp [isTypeSite, siteIsIdentMiss, hfind]
    | some found =>
      by_cases hu : found.unsupported <;> simp [hu, isTypeSite, siteIsIdentMiss, hfind]
  | launchSite l =>
    simp only [dispatchSite]
    unfold cudaLaunchKernel
    simp [isTypeSite, siteIsIdentMiss]
  | sharedSite ext tn vn so eo =>
    simp only [dispatchSite]
    unfold cudaSharedIncompleteArrayVar
    by_cases hx : ext <;> simp [hx, isTypeSite, siteIsIdentMiss]
    by_cases htn : tn = "" <;> simp [htn, isTypeSite, siteIsIdentMiss]
  | astString body w so =>
    simp only [dispatchSite]
    unfold stringLiteral
    by_cases hw : w = 1 <;> simp [hw, isTypeSite]
    obtain ⟨de, dh, h1, h2, h3, h4, h5⟩ := processString_editsDelta ctx so body.data st
    simp [h1, h2, h3, siteIsIdentMiss]
    omega

theorem c8_amended_witness :
    ((dispatchSite wCtx (Site.callSite "cudaMalloc" 5) initState).edits.length -
          initState.edits.length +
        ((dispatchSite wCtx (Site.callSite "cudaMalloc" 5) initState).warnings.length -
          initState.warnings.length) ≤
      (dispatchSite wCtx (Site.callSite "cudaMalloc" 5) initState).stats.hits.length -
        initState.stats.hits.length) ∧
    (dispatchSite wCtx (Site.callSite "cudaUnknown" 4) initState).stats.hits =
      initState.stats.hits :=
  ⟨(c8_amended wCtx (Site.callSite "cudaMalloc" 5) initState).2.1 (by decide) (by decide),
   (c8_amended wCtx (Site.callSite "cudaUnknown" 4) initState).2.2.2 (by decide)⟩

/-- Token kinds the lexer produces for string literals whose character byte
width is greater than 1 (`L"..."`, `u"..."`, `U"..."`): none of them is
`tok::string_literal`. -/
def isMultiByteLiteralKind : PPTokenKind → Bool
  | PPTokenKind.wideStringLit _ => true
  | PPTokenKind.utf16StringLit _ => true
  | PPTokenKind.utf32StringLit _ => true
  | _ => false

/-- C9: string literals of character byte width greater than 1 are skipped on
both paths — the AST handler checks `getCharByteWidth() == 1` explicitly, and
on the preprocessor path such literals lex as wide/UTF-16/UTF-32 tokens, for
which `RewriteToken` does nothing. -/
theorem c9_multibyte_skipped :
    (∀ (ctx : Ctx) (body : String) (w off : Nat) (st : TransState), w ≠ 1 →
      stringLiteral ctx body w off st = st) ∧
    (∀ (ctx : Ctx) (t : PPToken) (st : TransState), isMultiByteLiteralKind t.kind = true →
      RewriteToken ctx t st = st) := by
  constructor
  · intro ctx body w off st hw
    unfold stringLiteral
    simp [hw]
  · intro ctx t st hk
    obtain ⟨kind, loc⟩ := t
    cases kind <;> simp [isMultiByteLiteralKind] at hk <;> rfl

theorem c9_multibyte_skipped_witness :
    stringLiteral wCtx "cudaMalloc" 2 0 initState = initState ∧
    RewriteToken wCtx ⟨PPTokenKind.wideStringLit "cudaMalloc", 0⟩ initState = initState :=
  ⟨c9_multibyte_skipped.1 wCtx "cudaMalloc" 2 0 initState (by decide),
   c9_multibyte_skipped.2 wCtx ⟨PPTokenKind.wideStringLit "cudaMalloc", 0⟩ initState
     (by decide)⟩

/-- C10: through the common insertion path, the per-line touched set and the
total-bytes-changed statistic move only under the effective `-print-stats`
flag.  With `-print-stats` and `-examine` both absent — even when `-o-stats`
CSV output was requested — every insertion leaves both unchanged while still
appending the edit, and identifier-token lookups still record their per-entry
hit; with the flag effective, an insertion records the touched line and adds
the edit's length to the changed bytes. -/
theorem c10_stats_gating (opts : Options) (tbl : Tables) (lineOf : Nat → Nat)
    (rep : Edit) (st : TransState) (loc : Nat) (name : String) (found : HipCounter) :
    (opts.printStats = false → opts.examine = false →
      (insertReplacement ⟨tbl, effectivePrintStats opts, lineOf⟩ rep st).stats.linesTouched
          = st.stats.linesTouched ∧
      (insertReplacement ⟨tbl, effectivePrintStats opts, lineOf⟩ rep st).stats.bytesChanged
          = st.stats.bytesChanged ∧
      (insertReplacement ⟨tbl, effectivePrintStats opts, lineOf⟩ rep st).edits
          = st.edits ++ [rep] ∧
      (tbl.renames name = some found →
        (RewriteToken ⟨tbl, effectivePrintStats opts, lineOf⟩
            ⟨PPTokenKind.identTok name, loc⟩ st).stats.hits
          = st.stats.hits ++ [(found, name)])) ∧
    (effectivePrintStats opts = true →
      (insertReplacement ⟨tbl, effectivePrintStats opts, lineOf⟩ rep st).stats.linesTouched
          = st.stats.linesTouched ++ [lineOf rep.offset] ∧
      (insertReplacement ⟨tbl, effectivePrintStats opts, lineOf⟩ rep st).stats.bytesChanged
          = st.stats.bytesChanged + rep.length) := by
  constructor
  · intro hps hx
    have heff : effectivePrintStats opts = false := by
      simp [effectivePrintStats, hps, hx]
    refine ⟨?_, ?_, ?_, ?_⟩
    · unfold insertReplacement
      simp [heff]
    · unfold insertReplacement
      simp [heff]
    · simp
    · intro hfind
      unfold RewriteToken
      simp only []
      rw [hfind]
      by_cases hu : found.unsupported <;> simp [hu]
  · intro heff
    unfold insertReplacement
    simp [heff]

theorem c10_stats_gating_witness :
    (insertReplacement
        ⟨wTables, effectivePrintStats { outputStatsFilename := "x.csv" }, fun _ => 1⟩
        ⟨3, 2, "hip"⟩ initState).stats.linesTouched = initState.stats.linesTouched ∧
    (insertReplacement
        ⟨wTables, effectivePrintStats { outputStatsFilename := "x.csv" }, fun _ => 1⟩
        ⟨3, 2, "hip"⟩ initState).stats.bytesChanged = initState.stats.bytesChanged ∧
    (insertReplacement
        ⟨wTables, effectivePrintStats { outputStatsFilename := "x.csv" }, fun _ => 1⟩
        ⟨3, 2, "hip"⟩ initState).edits = initState.edits ++ [⟨3, 2, "hip"⟩] ∧
    (RewriteToken
        ⟨wTables, effectivePrintStats { outputStatsFilename := "x.csv" }, fun _ => 1⟩
        ⟨PPTokenKind.identTok "cudaMalloc", 7⟩ initState).stats.hits
      = initState.stats.hits ++ [(wEntry, "cudaMalloc")] := by
  obtain ⟨h1, h2, h3, h4⟩ :=
    (c10_stats_gating { outputStatsFilename := "x.csv" } wTables (fun _ => 1)
      ⟨3, 2, "hip"⟩ initState 7 "cudaMalloc" wEntry).1 rfl rfl
  exact ⟨h1, h2, h3, h4 (by decide)⟩

end HIP
